import Mathlib

/-!
Verification development for the moving-average CLI (src/unbabel_cli.py).

The program reads JSON-line event records, validates the required fields,
optionally applies a trailing-window cutoff and pattern filters, resamples
the durations onto a one-minute grid with forward fill, computes a
two-sample rolling mean, and prints the resulting rows. The definitions
below embed that pipeline stage by stage.
-/

/-- One JSON field value as it appears in a parsed input record: the pipeline
only distinguishes strings (timestamps, names, languages) and numbers
(durations). -/
inductive JVal
  | str (s : String)
  | num (q : ℚ)
deriving DecidableEq

/-- A parsed input line: a JSON object, i.e. an association list from field
names to values (json.loads keeps the last occurrence of a duplicated key;
we look fields up from the right accordingly). -/
abbrev Raw := List (String × JVal)

/-- Resolved command-line options (setup() in the source): optional window in
minutes and the three filter patterns, which argparse defaults to the
match-everything regex. -/
structure Options where
  window : Option Nat
  client : String
  source : String
  target : String
deriving DecidableEq

/-- The argparse defaults: no window, and a wildcard pattern for each filter. -/
def defaultOptions : Options := ⟨none, ".*", ".*", ".*"⟩

/-- Python truthiness of options.window at lines 43 and 72: None and 0 are
falsy, so the cutoff and the final trim run only for a nonzero window. -/
def windowActive (o : Options) : Bool :=
  match o.window with
  | none => false
  | some w => w != 0

/-- A typed event after timestamp parsing (line 28): date in seconds since the
epoch, numeric duration, and the three string fields used by the filters. -/
structure Event where
  date : Int
  duration : ℚ
  client_name : String
  source_language : String
  target_language : String
deriving DecidableEq

/-- Observable outcome of engine(): the printed schema diagnostic followed by
an early return, an uncaught exception propagating out of the function, or
the printed data rows (date label in epoch seconds, average). -/
inductive EngineResult
  | schemaError
  | exn
  | output (rows : List (Int × ℚ))
deriving DecidableEq

/-- Projection of the data rows out of an engine result, if any. -/
def outputRows : EngineResult → Option (List (Int × ℚ))
  | .output rows => some rows
  | _ => none

/-! ## Timestamp parsing (line 28, pd.to_datetime)

The model covers the canonical ISO form YYYY-MM-DDTHH:MM:SS that the
repository's inputs use; any other shape is a parse failure. The civil-date
arithmetic follows the standard days-from-civil algorithm; within the
four-digit-year range every division below is exact or has nonnegative
operands, so Lean's Int division agrees with the intended floor division. -/

/-- Numeric value of a digit character. -/
def dval (c : Char) : Int := (c.toNat : Int) - 48

/-- Gregorian leap-year test. -/
def isLeap (y : Int) : Bool := y % 4 == 0 && (y % 100 != 0 || y % 400 == 0)

/-- Number of days in a month, for validating the day field. -/
def daysInMonth (y m : Int) : Int :=
  if m = 2 then (if isLeap y then 29 else 28)
  else if m = 4 ∨ m = 6 ∨ m = 9 ∨ m = 11 then 30
  else 31

/-- Days since 1970-01-01 of a civil date (days-from-civil algorithm). -/
def daysFromCivil (y m d : Int) : Int :=
  let y2 : Int := if m ≤ 2 then y - 1 else y
  let era : Int := (if 0 ≤ y2 then y2 else y2 - 399) / 400
  let yoe : Int := y2 - era * 400
  let mp : Int := if 2 < m then m - 3 else m + 9
  let doy : Int := (153 * mp + 2) / 5 + d - 1
  let doe : Int := yoe * 365 + yoe / 4 - yoe / 100 + doy
  era * 146097 + doe - 719468

/-- Parse an ISO timestamp string into epoch seconds, or fail. -/
def parseTimestamp (s : String) : Option Int :=
  match s.toList with
  | [y1, y2, y3, y4, h1, mo1, mo2, h2, d1, d2, sep, hh1, hh2, c1, mi1, mi2, c2, ss1, ss2] =>
    if (h1 == '-') && (h2 == '-') && (sep == 'T') && (c1 == ':') && (c2 == ':') &&
       ([y1, y2, y3, y4, mo1, mo2, d1, d2, hh1, hh2, mi1, mi2, ss1, ss2].all Char.isDigit) then
      let y := 1000 * dval y1 + 100 * dval y2 + 10 * dval y3 + dval y4
      let mo := 10 * dval mo1 + dval mo2
      let d := 10 * dval d1 + dval d2
      let hh := 10 * dval hh1 + dval hh2
      let mi := 10 * dval mi1 + dval mi2
      let ss := 10 * dval ss1 + dval ss2
      if 1 ≤ mo ∧ mo ≤ 12 ∧ 1 ≤ d ∧ d ≤ daysInMonth y mo ∧ hh ≤ 23 ∧ mi ≤ 59 ∧ ss ≤ 59 then
        some (86400 * daysFromCivil y mo d + 3600 * hh + 60 * mi + ss)
      else none
    else none
  | _ => none

/-! ## Ingestion and validation (lines 16-28) -/

/-- Look a field up in a record; a duplicated key resolves to its last
occurrence, as in a Python dict built by json.loads. -/
def getField (r : Raw) (f : String) : Option JVal :=
  (r.reverse.find? (fun p => p.1 == f)).map Prod.snd

/-- Whether a record carries a field (contributes that column to the frame). -/
def hasField (r : Raw) (f : String) : Bool := r.any (fun p => p.1 == f)

/-- The five required columns checked at lines 17-18. -/
def requiredFields : List String :=
  ["timestamp", "duration", "client_name", "source_language", "target_language"]

/-- The schema gate at lines 17-20: the DataFrame's columns are the union of
the fields observed across all records, and every required field must be a
member of that union. -/
def schemaOk (rows : List Raw) : Bool :=
  requiredFields.all (fun f => rows.any (fun r => hasField r f))

/-- Convert one record to a typed event, parsing its timestamp first as line
28 does. The model covers records whose five fields are present with
well-typed values; pandas NaN propagation for a per-record missing value is
outside the model (no claim exercises it), so such a record also maps to
failure here. -/
def toEvent (r : Raw) : Option Event :=
  match getField r "timestamp" with
  | some (JVal.str ts) =>
    match parseTimestamp ts with
    | some t =>
      match getField r "duration", getField r "client_name",
            getField r "source_language", getField r "target_language" with
      | some (JVal.num d), some (JVal.str c), some (JVal.str sl), some (JVal.str tl) =>
        some ⟨t, d, c, sl, tl⟩
      | _, _, _, _ => none
    | none => none
  | _ => none

/-- Typed conversion of the whole input; any failing record fails the run,
as the column-wide pd.to_datetime at line 28 raises out of engine(). -/
def parseAll : List Raw → Option (List Event)
  | [] => some []
  | r :: rs =>
    match toEvent r, parseAll rs with
    | some e, some es => some (e :: es)
    | _, _ => none

/-! ## Chronological sort (lines 36-37)

pandas sort_values orders rows by date; ties leave every later stage's
observables unchanged (bucket means and the cutoff test depend only on the
multiset of rows per date), so a stable insertion sort models it. -/

/-- Insert an event into an already sorted list, before any event of equal
date. -/
def insertByDate (e : Event) : List Event → List Event
  | [] => [e]
  | x :: xs => if e.date ≤ x.date then e :: x :: xs else x :: insertByDate e xs

/-- Sort events ascending by date. -/
def sortByDate (es : List Event) : List Event := es.foldr insertByDate []

/-- Boolean check that a list of events is ascending by date. -/
def sortedByDate : List Event → Bool
  | [] => true
  | [_] => true
  | a :: b :: r => (a.date ≤ b.date) && sortedByDate (b :: r)

/-! ## Trailing-window cutoff with carry-in (lines 43-49) -/

/-- Date of the chronologically last record (df.index[-1] after the sort);
zero for an empty list, which engine() never passes here. -/
def lastDate (es : List Event) : Int :=
  match es.getLast? with
  | some e => e.date
  | none => 0

/-- The cutoff instant: last date minus the window, in seconds (line 48). -/
def cutoffVal (w : Nat) (es : List Event) : Int := lastDate es - 60 * (w : Int)

/-- Pair each record with its next record's timestamp; the final record is
paired with its own timestamp (the shift(-1) column of line 44 plus the
last-row fix-up of line 46). -/
def withNext : List Event → List (Event × Int)
  | [] => []
  | [e] => [(e, e.date)]
  | e :: e2 :: rest => (e, e2.date) :: withNext (e2 :: rest)

/-- The cutoff filter of line 49: keep the rows whose next timestamp is
strictly past the cutoff. -/
def cutoffKeep (w : Nat) (es : List Event) : List Event :=
  ((withNext es).filter (fun p => cutoffVal w es < p.2)).map Prod.fst

/-- Specification-side description of a record's next timestamp, read off the
sorted list by position: the following record's date, or the record's own
date for the final position. -/
def nextDate (es : List Event) (i : Nat) : Int :=
  match es.get? (i + 1) with
  | some e => e.date
  | none =>
    match es.get? i with
    | some e => e.date
    | none => 0

/-! ## Pattern filters (lines 53-57)

Model of Python re.search as used by Series.str.contains: unanchored match
of a pattern over the regex fragment with literals, the dot wildcard, and
the star, which covers the argparse wildcard default and plain substring
patterns. -/

/-- One regex atom. -/
inductive RAtom
  | dot
  | lit (c : Char)
deriving DecidableEq

/-- A pattern: atoms, each optionally starred. -/
abbrev Pat := List (RAtom × Bool)

/-- Whether an atom matches one character. -/
def atomMatch : RAtom → Char → Bool
  | .dot, _ => true
  | .lit c, d => c == d

/-- Fuel-indexed backtracking matcher, anchored at the start of the character
list. Every recursive call shrinks the pattern or the character list, so
fuel exceeding their combined length never runs out; structural recursion
on the fuel keeps the function kernel-computable. -/
def matchFuel : Nat → Pat → List Char → Bool
  | 0, _, _ => false
  | _ + 1, [], _ => true
  | _ + 1, (_, false) :: _, [] => false
  | n + 1, (a, false) :: ps, c :: cs => atomMatch a c && matchFuel n ps cs
  | n + 1, (_, true) :: ps, [] => matchFuel n ps []
  | n + 1, (a, true) :: ps, c :: cs =>
    matchFuel n ps (c :: cs) || (atomMatch a c && matchFuel n ((a, true) :: ps) cs)

/-- Match a pattern against a prefix of the character list, anchored at the
start. -/
def matchHere (p : Pat) (s : List Char) : Bool := matchFuel (p.length + s.length + 1) p s

/-- Unanchored search: try to match at every start position. -/
def searchAux (p : Pat) : List Char → Bool
  | [] => matchHere p []
  | c :: cs => matchHere p (c :: cs) || searchAux p cs

/-- re.search of a compiled pattern over a string. -/
def search (p : Pat) (s : String) : Bool := searchAux p s.toList

/-- Compile a pattern string: a character followed by a star becomes a starred
atom. -/
def parseAtoms : List Char → Pat
  | [] => []
  | c :: '*' :: rest => (if c == '.' then RAtom.dot else RAtom.lit c, true) :: parseAtoms rest
  | c :: rest => (if c == '.' then RAtom.dot else RAtom.lit c, false) :: parseAtoms rest

/-- Compile a pattern from its source string. -/
def compilePat (s : String) : Pat := parseAtoms s.toList

/-- The conjunctive row predicate of lines 53-57. -/
def keepEvent (o : Options) (e : Event) : Bool :=
  search (compilePat o.source) e.source_language &&
  search (compilePat o.target) e.target_language &&
  search (compilePat o.client) e.client_name

/-- The pattern-filter stage. -/
def filterStage (o : Options) (es : List Event) : List Event := es.filter (keepEvent o)

/-! ## Resample and gap-fill (lines 62-65) -/

/-- Bucket label of a timestamp under resample('1T', label='right') with the
default closed='left': the minute bins are left-closed, and each bin is
labeled by its right edge, so a record at second t gets label
60 * floor(t / 60) + 60. Int division is floor division here since the
divisor is positive. -/
def label1T (t : Int) : Int := 60 * (t / 60) + 60

/-- Arithmetic mean of a list of rationals. -/
def mean (qs : List ℚ) : ℚ := qs.sum / (qs.length : ℚ)

/-- The first resample (line 64): group the rows by bucket label, take the
mean per bucket, and drop the empty bins. On the sorted input engine()
supplies, equal labels are adjacent, so dedup lists the labels in ascending
first-occurrence order exactly as pandas lists the bins. -/
def bucketize (xs : List (Int × ℚ)) : List (Int × ℚ) :=
  let labeled := xs.map (fun p => (label1T p.1, p.2))
  ((labeled.map Prod.fst).dedup).map
    (fun L => (L, mean ((labeled.filter (fun p => p.1 == L)).map Prod.snd)))

/-- The complete minute grid from f to l inclusive (both multiples of 60 in
every use). -/
def minutesSpan (f l : Int) : List Int :=
  (List.range ((l - f).toNat / 60 + 1)).map (fun k : Nat => f + 60 * (k : Int))

/-- Forward-fill value at instant t: the value of the last bucket at or
before t (reindex with method ffill). Defaults to 0 when no bucket
precedes t, which never happens on the spans gapFill builds. -/
def ffillVal (bs : List (Int × ℚ)) (t : Int) : ℚ :=
  match (bs.filter (fun p => p.1 ≤ t)).getLast? with
  | some p => p.2
  | none => 0

/-- The second resample (line 65): with closed='right' on the minute-aligned
bucket index, pandas reindexes onto the full minute grid from the first to
the last bucket label and forward-fills. -/
def gapFill (bs : List (Int × ℚ)) : List (Int × ℚ) :=
  match bs.head?, bs.getLast? with
  | some fb, some lb => (minutesSpan fb.1 lb.1).map (fun t => (t, ffillVal bs t))
  | _, _ => []

/-- Boolean check that bucket keys are strictly increasing. -/
def strictKeys : List (Int × ℚ) → Bool
  | [] => true
  | [_] => true
  | a :: b :: r => (a.1 < b.1) && strictKeys (b :: r)

/-! ## Moving average (line 68) -/

/-- Rolling pair means: each element of the tail averaged with its
predecessor. -/
def pairAvg (prev : ℚ) : List ℚ → List ℚ
  | [] => []
  | y :: ys => (prev + y) / 2 :: pairAvg y ys

/-- rolling(window=2, min_periods=1, center=True).mean(): with window size 2
the centering offset (window - 1) / 2 is zero, so row i averages rows i-1
and i, and the first row degenerates to its own value. -/
def movingAvg : List ℚ → List ℚ
  | [] => []
  | x :: xs => x :: pairAvg x xs

/-! ## Output projection (lines 72-79) -/

/-- DataFrame.tail: the last n rows. -/
def tailN (n : Nat) (xs : List (Int × ℚ)) : List (Int × ℚ) := xs.drop (xs.length - n)

/-- The final trim of lines 72-75: keep the last window-many rows when a
window was requested, the whole series otherwise. -/
def outputTrim (o : Options) (rows : List (Int × ℚ)) : List (Int × ℚ) :=
  if windowActive o then tailN (o.window.getD 0) rows else rows

/-! ## The engine -/

/-- The whole pipeline of engine(), from parsed JSON lines to the observable
outcome. Output rows are (epoch-second label, average) pairs; the final
string rendering of the label (lines 79-82) is a bijective formatting step
outside the model. -/
def engine (o : Options) (input : List Raw) : EngineResult :=
  if schemaOk input then
    match parseAll input with
    | none => .exn
    | some evs =>
      let sorted := sortByDate evs
      let afterCutoff :=
        if windowActive o then cutoffKeep (o.window.getD 0) sorted else sorted
      let filtered := filterStage o afterCutoff
      let buckets := bucketize (filtered.map (fun e => (e.date, e.duration)))
      let filled := gapFill buckets
      let rows := (filled.map Prod.fst).zip (movingAvg (filled.map Prod.snd))
      .output (outputTrim o rows)
  else .schemaError

/-! ## Concrete inputs used by the theorems below -/

attribute [local semireducible] Rat.add Rat.mul Rat.inv

/-- The end-to-end scenario input: two complete records half a minute and two
and a half minutes into 2020-01-01. -/
def c2input : List Raw :=
  [[("timestamp", JVal.str "2020-01-01T00:00:00"), ("duration", JVal.num 5),
    ("client_name", JVal.str "acme"), ("source_language", JVal.str "en"),
    ("target_language", JVal.str "fr")],
   [("timestamp", JVal.str "2020-01-01T00:02:30"), ("duration", JVal.num 15),
    ("client_name", JVal.str "acme"), ("source_language", JVal.str "en"),
    ("target_language", JVal.str "fr")]]

/-- A complete record whose timestamp string is not parseable. -/
def badTsInput : List Raw :=
  [[("timestamp", JVal.str "not-a-date"), ("duration", JVal.num 5),
    ("client_name", JVal.str "acme"), ("source_language", JVal.str "en"),
    ("target_language", JVal.str "fr")]]

/-- Events at minutes t-12, t-9, t-5, t-1 and t for t = twelve minutes, the
carry-in example series of the specification. -/
def carrySeries : List Event :=
  [⟨0, 1, "a", "s", "t"⟩, ⟨180, 1, "a", "s", "t"⟩, ⟨420, 1, "a", "s", "t"⟩,
   ⟨660, 1, "a", "s", "t"⟩, ⟨720, 1, "a", "s", "t"⟩]

/-! ## Helper lemmas -/

set_option maxRecDepth 10000

/-- The compiled wildcard pattern is a single starred dot. -/
theorem compilePat_wildcard : compilePat ".*" = [(RAtom.dot, true)] := rfl

/-- A starred dot alone matches at any position, with any sufficient fuel. -/
theorem matchFuel_dotstar (n : Nat) (s : List Char) :
    matchFuel (n + 2) [(RAtom.dot, true)] s = true := by
  cases s with
  | nil => simp [matchFuel]
  | cons c cs => simp [matchFuel]

/-- The argparse default pattern matches every string. -/
theorem search_wildcard (s : String) : search (compilePat ".*") s = true := by
  rw [compilePat_wildcard, search]
  induction s.toList with
  | nil => simp [searchAux, matchHere, matchFuel]
  | cons c cs ih =>
    have h : matchHere [(RAtom.dot, true)] (c :: cs) = true := by
      have := matchFuel_dotstar (cs.length + 1) (c :: cs)
      simpa [matchHere] using this
    simp [searchAux, h]

/-- A record that fails typed conversion fails the whole input conversion. -/
theorem parseAll_none_of_mem {input : List Raw} {r : Raw} (hr : r ∈ input)
    (hre : toEvent r = none) : parseAll input = none := by
  induction input with
  | nil => simp at hr
  | cons x xs ih =>
    rcases List.mem_cons.mp hr with h | h
    · subst h; simp [parseAll, hre]
    · cases htx : toEvent x <;> simp [parseAll, htx, ih h]

/-- Rolling pair means preserve length. -/
theorem pairAvg_length (p : ℚ) (ys : List ℚ) : (pairAvg p ys).length = ys.length := by
  induction ys generalizing p with
  | nil => rfl
  | cons y ys ih => simp [pairAvg, ih]

/-- Position i+1 of the rolling pair means is the mean of positions i and i+1
of the input. -/
theorem pairAvg_get? (ys : List ℚ) : ∀ (p : ℚ) (i : Nat) (a b : ℚ),
    ys.get? i = some a → ys.get? (i + 1) = some b →
    (pairAvg p ys).get? (i + 1) = some ((a + b) / 2) := by
  induction ys with
  | nil => intro p i a b h1 _; simp at h1
  | cons y ys ih =>
    intro p i a b h1 h2
    cases i with
    | zero =>
      simp at h1
      subst h1
      cases ys with
      | nil => simp at h2
      | cons z zs =>
        simp at h2
        subst h2
        simp [pairAvg]
    | succ j =>
      rw [List.get?_cons_succ] at h1 h2
      simpa [pairAvg] using ih y j a b h1 h2

/-! ## Claim C5: moving average -/

/-- C5: the moving-average stage preserves the number of rows, the first row
degenerates to the first duration, and every later row i+1 is the mean of
durations i and i+1 (rolling window 2, min_periods 1; centering with window
size 2 has offset (2-1)/2 = 0, so the window is the row and its
predecessor). -/
theorem moving_average_pair_mean (xs : List ℚ) :
    (movingAvg xs).length = xs.length ∧
    (∀ a, xs.get? 0 = some a → (movingAvg xs).get? 0 = some a) ∧
    (∀ i a b, xs.get? i = some a → xs.get? (i + 1) = some b →
      (movingAvg xs).get? (i + 1) = some ((a + b) / 2)) := by
  refine ⟨?_, ?_, ?_⟩
  · cases xs with
    | nil => rfl
    | cons x xs => simp [movingAvg, pairAvg_length]
  · intro a h
    cases xs with
    | nil => simp at h
    | cons x xs =>
      simp at h
      subst h
      simp [movingAvg]
  · intro i a b h1 h2
    cases xs with
    | nil => simp at h1
    | cons x xs =>
      cases i with
      | zero =>
        simp at h1
        subst h1
        cases xs with
        | nil => simp at h2
        | cons z zs =>
          simp at h2
          subst h2
          simp [movingAvg, pairAvg]
      | succ j =>
        rw [List.get?_cons_succ] at h1 h2
        simpa [movingAvg] using pairAvg_get? xs x j a b h1 h2

/-- Witness for C5: the gap-filled series [10, 10, 10, 20] yields the
moving-average series [10, 10, 10, 15], its last row obtained from the
theorem as mean(10, 20). -/
theorem moving_average_pair_mean_w :
    movingAvg [10, 10, 10, 20] = [10, 10, 10, 15] ∧
    (movingAvg [10, 10, 10, 20]).get? 3 = some ((10 + 20) / 2) :=
  ⟨by decide, (moving_average_pair_mean [10, 10, 10, 20]).2.2 2 10 20 (by decide) (by decide)⟩

/-! ## Claim C9: filter conjunction -/

/-- C9: a record survives the pattern-filter stage iff its source language,
target language and client name each match the corresponding pattern
(unanchored search), and with all three patterns at their argparse default
every record is kept. -/
theorem filter_conjunction :
    (∀ (o : Options) (es : List Event) (e : Event),
      e ∈ filterStage o es ↔
        e ∈ es ∧ search (compilePat o.source) e.source_language = true ∧
          search (compilePat o.target) e.target_language = true ∧
          search (compilePat o.client) e.client_name = true) ∧
    (∀ es : List Event, filterStage defaultOptions es = es) := by
  constructor
  · intro o es e
    simp [filterStage, List.mem_filter, keepEvent, Bool.and_eq_true, and_assoc]
  · intro es
    rw [filterStage, List.filter_eq_self]
    intro e _
    simp [keepEvent, defaultOptions, Bool.and_eq_true, search_wildcard]

/-! ## Claim C8: output projection trim -/

/-- C8: when a window of W minutes is active, the final projection keeps
exactly the last W rows (a suffix of length min W n, in original order,
realized as dropping all but the last W); with no active window the series
passes through unchanged. The trim acts on the already computed series,
after and independently of the cutoff stage. -/
theorem output_trim_last_rows (o : Options) (rows : List (Int × ℚ)) :
    (windowActive o = true →
      outputTrim o rows = rows.drop (rows.length - o.window.getD 0) ∧
      outputTrim o rows <:+ rows ∧
      (outputTrim o rows).length = min (o.window.getD 0) rows.length) ∧
    (windowActive o = false → outputTrim o rows = rows) := by
  constructor
  · intro h
    refine ⟨by simp [outputTrim, h, tailN], ?_, ?_⟩
    · simp only [outputTrim, h, if_true, tailN]
      exact List.drop_suffix _ _
    · simp only [outputTrim, h, if_true, tailN, List.length_drop]
      omega
  · intro h
    simp [outputTrim, h]

/-- Witness for C8: a 20-row series with window 5 projects to exactly its
last 5 rows, in order. -/
theorem output_trim_last_rows_w :
    outputTrim ⟨some 5, ".*", ".*", ".*"⟩ ((List.range 20).map (fun i => ((i : Int), (i : ℚ))))
      = [(15, 15), (16, 16), (17, 17), (18, 18), (19, 19)] ∧
    (outputTrim ⟨some 5, ".*", ".*", ".*"⟩
      ((List.range 20).map (fun i => ((i : Int), (i : ℚ))))).length = min 5 20 := by
  constructor
  · decide
  · have h := (output_trim_last_rows ⟨some 5, ".*", ".*", ".*"⟩
      ((List.range 20).map (fun i => ((i : Int), (i : ℚ))))).1 (by decide)
    simpa using h.2.2

/-! ## Claim C6: schema gate -/

/-- C6: if some required field is carried by no record at all (so the union
of observed fields omits it), engine() stops at the schema gate: it reports
the schema diagnostic and returns, producing no data rows. -/
theorem schema_gate_missing_field (o : Options) (input : List Raw) (f : String)
    (hf : f ∈ requiredFields) (hmiss : ∀ r ∈ input, hasField r f = false) :
    engine o input = .schemaError := by
  have h : schemaOk input = false := by
    rw [schemaOk, List.all_eq_false]
    refine ⟨f, hf, ?_⟩
    simp only [List.any_eq_true, not_exists, not_and]
    intro r hr
    simp [hmiss r hr]
  simp [engine, h]

/-- Witness for C6: a record stream whose union of fields lacks the duration
field is rejected at the gate. -/
theorem schema_gate_missing_field_w :
    engine defaultOptions
      [[("timestamp", JVal.str "2020-01-01T00:00:00"), ("client_name", JVal.str "a"),
        ("source_language", JVal.str "en"), ("target_language", JVal.str "fr")]]
      = .schemaError :=
  schema_gate_missing_field defaultOptions _ "duration" (by decide) (by decide)

/-! ## Claim C10: empty input -/

/-- C10: an input with no records, or whose records all carry no fields,
exposes no columns, so the required-fields check fails and engine() takes
the schema-diagnostic early return instead of emitting an empty output. -/
theorem empty_input_schema_failure (o : Options) (input : List Raw)
    (hempty : ∀ r ∈ input, r = []) : engine o input = .schemaError := by
  have h : schemaOk input = false := by
    rw [schemaOk, List.all_eq_false]
    refine ⟨"timestamp", by decide, ?_⟩
    simp only [List.any_eq_true, not_exists, not_and]
    intro r hr
    rw [hempty r hr]
    simp [hasField]
  simp [engine, h]

/-- Witness for C10: both the zero-line input and an input of two fieldless
records hit the schema failure. -/
theorem empty_input_schema_failure_w :
    engine defaultOptions [] = .schemaError ∧
    engine defaultOptions [[], []] = .schemaError :=
  ⟨empty_input_schema_failure defaultOptions [] (by simp),
   empty_input_schema_failure defaultOptions [[], []] (by simp)⟩

/-! ## Claim C7: timestamp parse failure -/

/-- Counterexample for C7 as stated: with all five fields present but an
unparseable timestamp, engine() does not take the schema-diagnostic path;
pd.to_datetime at line 28 sits outside both try blocks, so the failure
escapes as an uncaught exception. -/
theorem ts_parse_not_schema_error :
    engine defaultOptions badTsInput = .exn ∧
    EngineResult.exn ≠ EngineResult.schemaError := by
  constructor
  · decide
  · decide

/-- C7 amended: a timestamp parse failure still aborts the run before any
aggregation work, with no data output rows, but it does so by an uncaught
exception from the parsing step rather than through the SchemaError
diagnostic-and-return path used for missing fields. -/
theorem ts_parse_failure_aborts (o : Options) (input : List Raw)
    (hschema : schemaOk input = true) (r : Raw) (hr : r ∈ input) (ts : String)
    (hts : getField r "timestamp" = some (JVal.str ts))
    (hbad : parseTimestamp ts = none) :
    engine o input = .exn := by
  have hre : toEvent r = none := by simp [toEvent, hts, hbad]
  have hpa : parseAll input = none := parseAll_none_of_mem hr hre
  simp [engine, hschema, hpa]

/-- Witness for C7 amended: the concrete bad-timestamp record aborts with the
uncaught-exception outcome. -/
theorem ts_parse_failure_aborts_w : engine defaultOptions badTsInput = .exn :=
  ts_parse_failure_aborts defaultOptions badTsInput (by decide)
    [("timestamp", JVal.str "not-a-date"), ("duration", JVal.num 5),
     ("client_name", JVal.str "acme"), ("source_language", JVal.str "en"),
     ("target_language", JVal.str "fr")]
    (by decide) "not-a-date" (by decide) (by decide)

/-! ## Claim C2: end-to-end scenario -/

/-- Counterexample for C2 as stated: the two-record scenario does not yield
two output rows; the gap-filled minute between the two buckets produces a
third row. -/
theorem end_to_end_not_two_rows :
    (outputRows (engine defaultOptions c2input)).map List.length ≠ some 2 := by
  decide

/-- C2 amended: the two-record scenario with no window or filters resamples
to buckets 00:01 (epoch second 1577836860) with mean 5 and 00:03
(1577836980) with mean 15, and yields three output rows: the degenerate
first row 00:01 with average 5, the forward-filled middle row 00:02 with
average 5, and the row 00:03 with average (5 + 15) / 2 = 10. -/
theorem end_to_end_three_rows :
    engine defaultOptions c2input =
      .output [(1577836860, 5), (1577836920, 5), (1577836980, 10)] ∧
    bucketize [((1577836800 : Int), (5 : ℚ)), (1577836950, 15)] =
      [(1577836860, 5), (1577836980, 15)] := by
  constructor
  · decide
  · decide

/-! ## Claim C3: bucketing convention -/

/-- Counterexample for C3 as stated: a record exactly on the minute boundary
17:04:00 (second 61440 of the day) does not land in the bucket labeled
17:04:00; with the resample default closed='left' it lands in the bucket
labeled 17:05:00 (second 61500). -/
theorem bucket_boundary_not_right_closed :
    bucketize [((61440 : Int), (10 : ℚ))] ≠ [(61440, 10)] ∧
    bucketize [((61440 : Int), (10 : ℚ))] = [(61500, 10)] := by
  constructor
  · decide
  · decide

/-- C3 amended: buckets are one-minute, right-labeled but LEFT-closed
intervals: a record at second t is assigned the label L = 60 * (t / 60) + 60,
characterized by L being minute-aligned with L - 60 ≤ t < L; a record
strictly inside a minute (such as 17:03:45, second 61425) still lands in the
next-minute label 17:04:00, but a record exactly on a boundary lands in the
following bucket; multiple records in one bucket aggregate by arithmetic
mean, and every produced bucket stems from at least one record (empty
bins are dropped). -/
theorem bucketing_left_closed_right_labeled :
    (∀ t L : Int, label1T t = L ↔ (L % 60 = 0 ∧ L - 60 ≤ t ∧ t < L)) ∧
    bucketize [((61425 : Int), (10 : ℚ))] = [(61440, 10)] ∧
    bucketize [((61440 : Int), (10 : ℚ))] = [(61500, 10)] ∧
    bucketize [((61425 : Int), (10 : ℚ)), (61430, 20)] = [(61440, 15)] ∧
    (∀ xs : List (Int × ℚ),
      (bucketize xs).all (fun p => xs.any (fun q => label1T q.1 == p.1)) = true) := by
  refine ⟨?_, by decide, by decide, by decide, ?_⟩
  · intro t L
    rw [label1T]
    omega
  · intro xs
    rw [List.all_eq_true]
    intro p hp
    simp only [bucketize] at hp
    rcases List.mem_map.mp hp with ⟨L, hL, rfl⟩
    rcases List.mem_map.mp (List.mem_dedup.mp hL) with ⟨q, hq, rfl⟩
    rcases List.mem_map.mp hq with ⟨q0, hq0, rfl⟩
    rw [List.any_eq_true]
    exact ⟨q0, hq0, by simp⟩

/-! ## Claim C1: trailing-window cutoff with carry-in -/

/-- The cutoff filter characterized positionally: a row of the sorted series
is retained exactly when the date of the row after it (its own date, for
the final row) lies strictly past the cutoff. -/
theorem cutoffKeep_eq (w : Nat) :
    ∀ es : List Event, es ≠ [] →
    cutoffKeep w es =
      (List.range es.length).filterMap (fun i =>
        if cutoffVal w es < nextDate es i then es.get? i else none) := by
  intro es
  induction es with
  | nil => intro h; exact absurd rfl h
  | cons e t ih =>
    intro _
    cases t with
    | nil =>
      have h1 : nextDate [e] 0 = e.date := rfl
      by_cases hc : cutoffVal w [e] < e.date
      · simp [cutoffKeep, withNext, List.filter_cons, hc, h1, List.range_succ,
          List.filterMap_cons]
      · simp [cutoffKeep, withNext, List.filter_cons, hc, h1, List.range_succ,
          List.filterMap_cons]
    | cons e2 rest =>
      have hne2 : e2 :: rest ≠ [] := by simp
      have hcut : cutoffVal w (e :: e2 :: rest) = cutoffVal w (e2 :: rest) := by
        simp [cutoffVal, lastDate, List.getLast?_cons_cons]
      have hnd0 : nextDate (e :: e2 :: rest) 0 = e2.date := rfl
      have hsplit : cutoffKeep w (e :: e2 :: rest)
          = (if cutoffVal w (e2 :: rest) < e2.date then [e] else [])
            ++ cutoffKeep w (e2 :: rest) := by
        simp only [cutoffKeep, withNext, hcut, List.filter_cons]
        by_cases hc : cutoffVal w (e2 :: rest) < e2.date
        · simp [hc]
        · simp [hc]
      have hcomp : ((fun i => if cutoffVal w (e :: e2 :: rest) < nextDate (e :: e2 :: rest) i
            then (e :: e2 :: rest).get? i else none) ∘ Nat.succ)
          = (fun i => if cutoffVal w (e2 :: rest) < nextDate (e2 :: rest) i
            then (e2 :: rest).get? i else none) := by
        funext i
        simp only [Function.comp_apply]
        rw [hcut]
        rfl
      rw [List.length_cons, List.range_succ_eq_map, List.filterMap_cons, List.filterMap_map,
        hcomp, hcut, hnd0, hsplit, ih hne2]
      by_cases hc : cutoffVal w (e2 :: rest) < e2.date
      · rw [if_pos hc, if_pos hc]
        rfl
      · rw [if_neg hc, if_neg hc]
        rfl

/-- C1: for a non-empty series sorted ascending and an active window of W
minutes with cutoff = (last date) - W minutes, the cutoff step retains a
row iff its next row's date (its own date, for the final row) is strictly
greater than the cutoff; in particular the final record is always retained.
The record immediately before the cutoff is thereby carried in even when
its own date precedes the cutoff. -/
theorem cutoff_carry_in (w : Nat) (es : List Event) (hw : 1 ≤ w) (hne : es ≠ [])
    (hs : sortedByDate es = true) :
    (cutoffKeep w es =
      (List.range es.length).filterMap (fun i =>
        if cutoffVal w es < nextDate es i then es.get? i else none)) ∧
    (∀ e, es.getLast? = some e → e ∈ cutoffKeep w es) := by
  refine ⟨cutoffKeep_eq w es hne, ?_⟩
  intro e he
  rw [cutoffKeep_eq w es hne, List.mem_filterMap]
  have hpos := List.length_pos.mpr hne
  refine ⟨es.length - 1, List.mem_range.mpr (by omega), ?_⟩
  have hget : es.get? (es.length - 1) = some e := by
    rw [← List.getLast?_eq_get?]
    exact he
  have hnone : es.get? (es.length - 1 + 1) = none := by
    rw [List.get?_eq_none]
    omega
  have hnd : nextDate es (es.length - 1) = e.date := by
    unfold nextDate
    rw [hnone, hget]
  have hld : lastDate es = e.date := by
    unfold lastDate
    rw [he]
  have hcond : cutoffVal w es < nextDate es (es.length - 1) := by
    rw [cutoffVal, hld, hnd]
    omega
  rw [if_pos hcond]
  exact hget

/-- Witness for C1: the series at minutes 0, 3, 7, 11, 12 (i.e. t-12, t-9,
t-5, t-1, t in seconds) with window 10 has cutoff 120, and the record at
second 0 is retained as carry-in even though 0 < 120: its next record (at
180) is past the cutoff. -/
theorem cutoff_carry_in_w :
    cutoffKeep 10 carrySeries =
      (List.range carrySeries.length).filterMap (fun i =>
        if cutoffVal 10 carrySeries < nextDate carrySeries i
        then carrySeries.get? i else none) ∧
    (⟨0, 1, "a", "s", "t"⟩ : Event) ∈ cutoffKeep 10 carrySeries ∧
    (0 : Int) < cutoffVal 10 carrySeries :=
  ⟨(cutoff_carry_in 10 carrySeries (by decide) (by decide) (by decide)).1,
   by decide, by decide⟩

/-! ## Claim C4: gap-fill -/

/-- In a strictly ascending bucket list, the head key is below every later
key. -/
theorem strictKeys_head_lt : ∀ (bs : List (Int × ℚ)) (b : Int × ℚ),
    strictKeys (b :: bs) = true → (∀ q ∈ bs, b.1 < q.1) ∧ strictKeys bs = true := by
  intro bs
  induction bs with
  | nil =>
    intro b _
    exact ⟨by simp, rfl⟩
  | cons c cs ih =>
    intro b h
    have h2 : b.1 < c.1 ∧ strictKeys (c :: cs) = true := by
      simpa [strictKeys] using h
    obtain ⟨hall, _⟩ := ih c h2.2
    refine ⟨?_, h2.2⟩
    intro q hq
    rcases List.mem_cons.mp hq with h3 | h3
    · subst h3
      exact h2.1
    · exact lt_trans h2.1 (hall q h3)

/-- Forward fill returns the value of the nearest earlier present bucket:
if (k, v) is a bucket with k ≤ t and every bucket key at or below t is at
most k, then the fill value at t is v. -/
theorem ffill_nearest : ∀ bs : List (Int × ℚ), strictKeys bs = true →
    ∀ t k v, (k, v) ∈ bs → k ≤ t → (∀ q ∈ bs, q.1 ≤ t → q.1 ≤ k) →
    ffillVal bs t = v := by
  intro bs
  induction bs with
  | nil =>
    intro _ t k v hm
    simp at hm
  | cons b bs ih =>
    intro hkeys t k v hm hk hmax
    obtain ⟨hall, hrest⟩ := strictKeys_head_lt bs b hkeys
    rcases List.mem_cons.mp hm with h | h
    · subst h
      have hfe : bs.filter (fun p => decide (p.1 ≤ t)) = [] := by
        rw [List.filter_eq_nil]
        intro q hq
        simp only [decide_eq_true_eq]
        intro hqt
        have h1 := hmax q (List.mem_cons_of_mem _ hq) hqt
        have h2 := hall q hq
        omega
      have hfc : List.filter (fun p => decide (p.1 ≤ t)) ((k, v) :: bs) = [(k, v)] := by
        rw [List.filter_cons]
        simp [hk, hfe]
      simp only [ffillVal, hfc, List.getLast?_singleton]
    · have hbk : b.1 < k := hall (k, v) h
      have hbt : b.1 ≤ t := le_of_lt (lt_of_lt_of_le hbk hk)
      have hfc : List.filter (fun p => decide (p.1 ≤ t)) (b :: bs)
          = b :: bs.filter (fun p => decide (p.1 ≤ t)) := by
        rw [List.filter_cons]
        simp [hbt]
      have hmem : (k, v) ∈ bs.filter (fun p => decide (p.1 ≤ t)) :=
        List.mem_filter.mpr ⟨h, by simp [hk]⟩
      have hrec := ih hrest t k v h hk (fun q hq hqt => hmax q (List.mem_cons_of_mem _ hq) hqt)
      simp only [ffillVal, hfc]
      cases hfl : bs.filter (fun p => decide (p.1 ≤ t)) with
      | nil =>
        rw [hfl] at hmem
        simp at hmem
      | cons c cs =>
        rw [List.getLast?_cons_cons]
        simp only [ffillVal, hfl] at hrec
        exact hrec

/-- C4: on a non-empty bucket list with strictly ascending keys, the
gap-fill stage produces the complete contiguous one-per-minute span from
the earliest to the latest present bucket label (row i carries label
first + 60 i), every row's value is the forward-fill value at its label,
and the forward-fill value at any instant is the value of the nearest
earlier present bucket. -/
theorem gap_fill_forward (bs : List (Int × ℚ)) (hne : bs ≠ [])
    (hkeys : strictKeys bs = true) :
    ((gapFill bs).map Prod.fst = minutesSpan (bs.head hne).1 (bs.getLast hne).1) ∧
    ((gapFill bs).length = ((bs.getLast hne).1 - (bs.head hne).1).toNat / 60 + 1) ∧
    (∀ i : Nat, i < (gapFill bs).length →
      (gapFill bs).get? i = some ((bs.head hne).1 + 60 * (i : Int),
        ffillVal bs ((bs.head hne).1 + 60 * (i : Int)))) ∧
    (∀ t k v, (k, v) ∈ bs → k ≤ t → (∀ q ∈ bs, q.1 ≤ t → q.1 ≤ k) →
      ffillVal bs t = v) := by
  have hgf : gapFill bs = (minutesSpan (bs.head hne).1 (bs.getLast hne).1).map
      (fun t => (t, ffillVal bs t)) := by
    cases bs with
    | nil => exact absurd rfl hne
    | cons b bs2 =>
      have hl : (b :: bs2).getLast? = some ((b :: bs2).getLast hne) :=
        List.getLast?_eq_getLast _ _
      simp only [gapFill, List.head?_cons, hl, List.head_cons]
  refine ⟨?_, ?_, ?_, ffill_nearest bs hkeys⟩
  · rw [hgf, List.map_map]
    have hid : (Prod.fst ∘ fun t => (t, ffillVal bs t)) = id := rfl
    rw [hid, List.map_id]
  · rw [hgf, List.length_map, minutesSpan, List.length_map, List.length_range]
  · intro i hi
    have hN : (gapFill bs).length = ((bs.getLast hne).1 - (bs.head hne).1).toNat / 60 + 1 := by
      rw [hgf, List.length_map, minutesSpan, List.length_map, List.length_range]
    rw [hN] at hi
    rw [hgf, minutesSpan, List.map_map, List.get?_map, List.get?_range hi]
    rfl

/-- Witness for C4: bucket means at minutes 1 and 4 (from records at minutes
0 and 3 with durations 10 and 20) gap-fill to exactly four rows with
durations 10, 10, 10, 20 in chronological order, spanning the full minute
range of the bucket list. -/
theorem gap_fill_forward_w :
    gapFill (bucketize [((0 : Int), (10 : ℚ)), (180, 20)])
      = [(60, 10), (120, 10), (180, 10), (240, 20)] ∧
    (gapFill (bucketize [((0 : Int), (10 : ℚ)), (180, 20)])).map Prod.fst =
      minutesSpan ((bucketize [((0 : Int), (10 : ℚ)), (180, 20)]).head (by decide)).1
        ((bucketize [((0 : Int), (10 : ℚ)), (180, 20)]).getLast (by decide)).1 :=
  ⟨by decide,
   (gap_fill_forward (bucketize [((0 : Int), (10 : ℚ)), (180, 20)])
     (by decide) (by decide)).1⟩
